import Mathlib

/-!
Verification of the PyMetaboleX patient-record harmonization and QC pipeline.

The repository's core is a set of Python scripts; the parts the claims are
about are embedded here as pure Lean functions:

* `src/data_harmonization.py` — the metadata scan building
  `vial_id_to_patient_id` and `patients_with_two_vials` (lines 69–80), the
  master-sheet validation building `valid_everything` (83–94), the
  `not_in_master` classification (line 97), and the assembly loop building
  `final_data` (122–133).  Python dictionaries are modelled as association
  lists processed in insertion order.
* `src/qc.py` / `src/filter_data.py` — the `MetaboliteQC` class: the five
  cleaning stages and `run_QC_pipeline`, with pandas NaN cells modelled as
  `Option ℚ` (`none` = NaN) and pandas index alignment modelled explicitly
  via row/column labels.
* `src/evaluate_data.py` — the `df_ranked` rank transform.
-/

namespace PyMetaboleX

/-- Python `dict` update `d[k] = v`: replace the value of an existing key in
place, or append a fresh key at the end (dicts keep insertion order). -/
def upsert {α β : Type} [DecidableEq α] (k : α) (v : β) : List (α × β) → List (α × β)
  | [] => [(k, v)]
  | p :: t => if p.1 = k then (k, v) :: t else p :: upsert k v t

/-- Python `d[k]` / `k in d`: the value at the first entry with key `k`. -/
def lookup {α β : Type} [DecidableEq α] (k : α) (d : List (α × β)) : Option β :=
  (List.find? (fun p => p.1 = k) d).map Prod.snd

/-- Python `del d[k]`. -/
def eraseKey {α β : Type} [DecidableEq α] (k : α) (d : List (α × β)) : List (α × β) :=
  d.filter (fun p => ¬ p.1 = k)

/-- ASCII lower-casing of one character, as Python `str.lower` acts on the
phenotype strings appearing in the sheets. -/
def lower_char (c : Char) : Char :=
  if 'A' ≤ c ∧ c ≤ 'Z' then Char.ofNat (c.toNat + 32) else c

/-- Python `s.lower()` for the ASCII strings of this data set. -/
def lower_string (s : String) : String := String.mk (s.data.map lower_char)

/-- One data row of the metadata sheet (`meta_data_excel`, rows 1 onward):
`patient` is column 2, `vial` is the integer parsed from the compound string
in column 0 (the source strips all non-digits with `re.sub`), `pheno` is the
phenotype string of column 7. -/
structure MetaRow where
  patient : Int
  vial : Nat
  pheno : String
deriving DecidableEq

/-- The mutable state of the metadata scan of `data_harmonization.py`
(lines 63–80): the three containers created before the loop. -/
structure MatchState where
  meta_pheno_dict : List (Int × String)
  vial_id_to_patient_id : List (Nat × Int)
  patients_with_two_vials : List Int
deriving DecidableEq

/-- The body of the metadata loop (`data_harmonization.py` lines 69–80): a row
is processed only when its patient id is in the candidate list extracted from
the metabolite sheet; its phenotype is recorded lower-cased; on a vial
collision the current and the previously mapped patient are appended to
`patients_with_two_vials` and the mapping entry is deleted, otherwise the
vial is mapped to the patient. -/
def process_meta_row (patient_ids : List Int) (st : MatchState) (r : MetaRow) : MatchState :=
  if r.patient ∈ patient_ids then
    let st1 : MatchState :=
      { st with meta_pheno_dict := upsert r.patient (lower_string r.pheno) st.meta_pheno_dict }
    match lookup r.vial st1.vial_id_to_patient_id with
    | some patient_1 =>
        { st1 with
            patients_with_two_vials := st1.patients_with_two_vials ++ [r.patient, patient_1],
            vial_id_to_patient_id := eraseKey r.vial st1.vial_id_to_patient_id }
    | none =>
        { st1 with vial_id_to_patient_id := upsert r.vial r.patient st1.vial_id_to_patient_id }
  else st

/-- The whole metadata scan, starting from the empty dictionaries and lists of
`data_harmonization.py` lines 63–66. -/
def scan_meta (patient_ids : List Int) (rows : List MetaRow) : MatchState :=
  rows.foldl (process_meta_row patient_ids) ⟨[], [], []⟩

/-- The ordered list of patients of candidate metadata rows claiming vial
`v` — the sequence of claimants the loop sees for that vial. -/
def claimants (patient_ids : List Int) (v : Nat) (rows : List MetaRow) : List Int :=
  (rows.filter (fun r => r.patient ∈ patient_ids ∧ r.vial = v)).map MetaRow.patient

/-- Specification of what the scan leaves in the vial map for one vial, as a
function of that vial's claimant sequence: each claimant either fills the
empty slot or evicts the current occupant. -/
def vial_fate : Option Int → List Int → Option Int
  | cur, [] => cur
  | some _, _ :: ps => vial_fate none ps
  | none, p :: ps => vial_fate (some p) ps

/-- Specification of the conflict-list entries contributed by one vial's
claimant sequence: when a claimant `p` finds the slot occupied by `q`, the
loop appends `p` and then `q` (the source appends `int(patient_id)` and then
`int(patient_1)`) and empties the slot. -/
def conflict_pairs : Option Int → List Int → List Int
  | _, [] => []
  | some q, p :: ps => p :: q :: conflict_pairs none ps
  | none, p :: ps => conflict_pairs (some p) ps

/-- Phenotype canonicalization of the master scan
(`data_harmonization.py` lines 88–92): lower-case, map `"mam"` to
`"moderate acute malnutrition"` and both kwashiorkor spellings to
`"kwashiorkor"`. -/
def canon_pheno (s : String) : String :=
  let p := lower_string s
  if p = "mam" then "moderate acute malnutrition"
  else if p = "marasmic kwashiorkor" ∨ p = "marasmus kwashiorkor" then "kwashiorkor"
  else p

/-- One data row of the master sheet: vial id (column 0), phenotype string
(column 1), and the descriptor columns 1–6 copied into assembled rows. -/
structure MasterRow where
  vial : Nat
  pheno : String
  meta_cols : List String
deriving DecidableEq

/-- One data row of the metabolite sheet (rows 5 onward): the patient id of
column 1 and the measurement cells from column 7 onward. -/
structure MetabSheetRow where
  patient : Int
  values : List String
deriving DecidableEq

/-- Loop body of the master validation (`data_harmonization.py` lines 84–94):
a master row whose vial survives in the map contributes its patient to
`valid_everything` when the canonicalized master phenotype equals the
recorded metadata phenotype.  (In the source the phenotype lookup is
`meta_pheno_dict[patient_id]`, which never fails because every mapped
patient was given an entry during the scan; here it is an `Option`
comparison.) -/
def valid_step (st : MatchState) (acc : List Int) (row : MasterRow) : List Int :=
  match lookup row.vial st.vial_id_to_patient_id with
  | some patient_id =>
      if lookup patient_id st.meta_pheno_dict = some (canon_pheno row.pheno) then
        acc ++ [patient_id]
      else acc
  | none => acc

/-- `valid_everything` (`data_harmonization.py` lines 83–94). -/
def valid_everything (st : MatchState) (master : List MasterRow) : List Int :=
  master.foldl (valid_step st) []

/-- `not_in_master` (`data_harmonization.py` line 97): the values of the
surviving vial map that are not in `valid_everything`. -/
def not_in_master (st : MatchState) (master : List MasterRow) : List Int :=
  (st.vial_id_to_patient_id.map Prod.snd).filter
    (fun id => ¬ id ∈ valid_everything st master)

/-- One assembled data row of `final_data`
(`data_harmonization.py` lines 122–133). -/
structure DataRow where
  patient : Int
  vial : Nat
  meta_cols : List String
  values : List String
deriving DecidableEq

/-- Loop body of the assembly (`data_harmonization.py` lines 122–133): a
master row whose vial is in the surviving map produces one row, completed
and appended only when a metabolite-sheet row with the mapped patient id is
found by linear scan (`break` at the first match). -/
def assemble_step (st : MatchState) (metab : List MetabSheetRow)
    (acc : List DataRow) (row : MasterRow) : List DataRow :=
  match lookup row.vial st.vial_id_to_patient_id with
  | some patient_id =>
      match List.find? (fun m => m.patient = patient_id) metab with
      | some m => acc ++ [⟨patient_id, row.vial, row.meta_cols, m.values⟩]
      | none => acc
  | none => acc

/-- `final_data` (`data_harmonization.py` lines 122–133), without the header
row the source prepends at line 119. -/
def final_data (st : MatchState) (master : List MasterRow)
    (metab : List MetabSheetRow) : List DataRow :=
  master.foldl (assemble_step st metab) []

/-- Whether a master row produces an assembled row: its vial is mapped and
some metabolite-sheet row carries the mapped patient id. -/
def assembles (st : MatchState) (metab : List MetabSheetRow) (row : MasterRow) : Bool :=
  match lookup row.vial st.vial_id_to_patient_id with
  | some patient_id => (List.find? (fun m => m.patient = patient_id) metab).isSome
  | none => false

/-! ## Cleaning Engine (`src/qc.py` and `src/filter_data.py`, class `MetaboliteQC`)

A pandas cell is `Option ℚ` with `none` for NaN (a cell that was non-numeric
is already `none`: `load_data` applies `pd.to_numeric(errors='coerce')` to
the metabolite block).  A pandas index label is either an integer row label
(the default `RangeIndex` produced by reading the file) or a string column
name; `fillna` with a Series argument aligns on these labels. -/

/-- A pandas index label: integer row labels or string column names. -/
inductive Label where
  | num : Nat → Label
  | str : String → Label
deriving DecidableEq

/-- A pandas cell: `none` is NaN. -/
abbrev Cell := Option ℚ

/-- The `self.metabolite_data` frame: a shared row-label index and named
columns whose cell lists align positionally with the row labels. -/
structure MetabData where
  rows : List Label
  cols : List (String × List Cell)
deriving DecidableEq

/-- The non-NaN values of a column (pandas `dropna` view used by the
skipna statistics). -/
def presentVals (cells : List Cell) : List ℚ := cells.filterMap id

/-- `isna().sum()` for one column. -/
def naCount (cells : List Cell) : Nat := (cells.filter (fun c => c = none)).length

/-- `(column == 0).sum()`: NaN compares unequal to 0. -/
def zeroCount (cells : List Cell) : Nat := (cells.filter (fun c => c = some 0)).length

/-- pandas `nunique()`: distinct non-NaN values. -/
def nunique (cells : List Cell) : Nat := (presentVals cells).dedup.length

/-- Sum of a list of rationals. -/
def listSum (l : List ℚ) : ℚ := l.foldr (· + ·) 0

/-- pandas `mean()` (skipna); NaN on an all-NaN column. -/
def colMean (cells : List Cell) : Cell :=
  let p := presentVals cells
  if p.length = 0 then none else some (listSum p / p.length)

/-- pandas `min()` (skipna); NaN on an all-NaN column. -/
def colMin (cells : List Cell) : Cell :=
  match presentVals cells with
  | [] => none
  | x :: xs => some (xs.foldl min x)

/-- Insertion into a sorted list, for the median. -/
def insertSorted (x : ℚ) : List ℚ → List ℚ
  | [] => [x]
  | y :: ys => if x ≤ y then x :: y :: ys else y :: insertSorted x ys

/-- Ascending sort by insertion. -/
def sortVals (l : List ℚ) : List ℚ := l.foldr insertSorted []

/-- pandas `median()` (skipna): middle element, or the mean of the two middle
elements for an even count; NaN on an all-NaN column. -/
def colMedian (cells : List Cell) : Cell :=
  let s := sortVals (presentVals cells)
  if s.length = 0 then none
  else if s.length % 2 = 1 then some (s.getD (s.length / 2) 0)
  else some ((s.getD (s.length / 2 - 1) 0 + s.getD (s.length / 2) 0) / 2)

/-- pandas `std()` squared: the ddof-1 sample variance (skipna); NaN when
fewer than two values are present. -/
def colVarS (cells : List Cell) : Cell :=
  let p := presentVals cells
  if p.length < 2 then none
  else
    let m := listSum p / p.length
    some (listSum (p.map (fun x => (x - m) ^ 2)) / ((p.length : ℚ) - 1))

/-- The outlier test of `replace_outliers`: the source computes
`np.abs(x - median) > nSD * std`; both sides being nonnegative (every use
has `nSD ≥ 0`), this is compared here in squared form against the sample
variance, avoiding the irrational square root.  A NaN cell is never an
outlier. -/
def isOutlier (nSD : ℚ) (med varS : ℚ) (c : Cell) : Bool :=
  match c with
  | none => false
  | some x => (x - med) ^ 2 > nSD ^ 2 * varS

/-- `replace_outliers` on one column: cells masked as outliers are replaced
by the column median.  When the median or the std is NaN (fewer than two
values present) every comparison with NaN is false and nothing changes. -/
def replace_outliers_col (nSD : ℚ) (cells : List Cell) : List Cell :=
  match colMedian cells, colVarS cells with
  | some med, some v =>
      cells.map (fun c => if isOutlier nSD med v c then some med else c)
  | _, _ => cells

/-- `MetaboliteQC.filter_constant_columns`: when enabled, keep only columns
with more than one distinct value. -/
def filter_constant_columns (flag : Bool) (md : MetabData) : MetabData :=
  if flag then { md with cols := md.cols.filter (fun c => nunique c.2 > 1) } else md

/-- NaN count of row position `i` across the columns (`isna().sum(axis=1)`). -/
def row_na_count (cols : List (String × List Cell)) (i : Nat) : Nat :=
  (cols.filter (fun c => c.2.get? i = some none)).length

/-- Keep the entries of `l` whose position satisfies `keep` (boolean row
selection with `.loc`). -/
def keep_idxs {α : Type} (keep : Nat → Bool) (l : List α) : List α :=
  (l.enum.filter (fun p => keep p.1)).map Prod.snd

/-- First half of `MetaboliteQC.filter_by_missing_rate`: when the column
threshold is set, keep the columns whose NaN count is strictly below
`rows × threshold`. -/
def filter_col_missing (colT : Option ℚ) (md : MetabData) : MetabData :=
  match colT with
  | some t =>
      { md with
        cols := md.cols.filter (fun c => ((naCount c.2 : ℚ) < (md.rows.length : ℚ) * t)) }
  | none => md

/-- Second half of `MetaboliteQC.filter_by_missing_rate`: when the row
threshold is set, keep the rows whose NaN count across the (already
column-filtered) frame is strictly below `cols × threshold`. -/
def filter_row_missing (rowT : Option ℚ) (md : MetabData) : MetabData :=
  match rowT with
  | some t =>
      { rows := keep_idxs
          (fun i => ((row_na_count md.cols i : ℚ) < (md.cols.length : ℚ) * t)) md.rows,
        cols := md.cols.map (fun c =>
          (c.1, keep_idxs
            (fun i => ((row_na_count md.cols i : ℚ) < (md.cols.length : ℚ) * t)) c.2)) }
  | none => md

/-- `MetaboliteQC.filter_by_missing_rate`: the column filter, then the row
filter on the column-filtered frame. -/
def filter_by_missing_rate (colT rowT : Option ℚ) (md : MetabData) : MetabData :=
  filter_row_missing rowT (filter_col_missing colT md)

/-- `MetaboliteQC.filter_by_zero_rate`: when the threshold is set, keep the
columns whose zero count is strictly below `rows × threshold`. -/
def filter_by_zero_rate (t? : Option ℚ) (md : MetabData) : MetabData :=
  match t? with
  | some t =>
      { md with
        cols := md.cols.filter (fun c => ((zeroCount c.2 : ℚ) < (md.rows.length : ℚ) * t)) }
  | none => md

/-- `MetaboliteQC.replace_outliers`: only the `"median"` method mutates the
frame. -/
def replace_outliers (method : Option String) (nSD : ℚ) (md : MetabData) : MetabData :=
  match method with
  | some m =>
      if m = "median" then
        { md with cols := md.cols.map (fun c => (c.1, replace_outliers_col nSD c.2)) }
      else md
  | none => md

/-- `Series.fillna(scalar)` on one column. -/
def fillna_scalar (cells : List Cell) (v : Cell) : List Cell :=
  cells.map (fun c =>
    match c with
    | some x => some x
    | none => v)

/-- `Series.fillna(other_series)` on one column: a NaN cell at row label `l`
is filled with the value of the argument series at index label `l`, and is
left NaN when the argument series has no entry at `l` or a NaN there.  This
is the pandas index alignment that makes the half-min strategy of
`impute_missing_values` a no-op: the argument series is indexed by column
names while the cells are indexed by row labels. -/
def fillna_aligned (rows : List Label) (cells : List Cell)
    (s : List (Label × Cell)) : List Cell :=
  (rows.zip cells).map (fun rc =>
    match rc.2 with
    | some x => some x
    | none =>
        match lookup rc.1 s with
        | some (some v) => some v
        | _ => none)

/-- `MetaboliteQC.impute_missing_values` (`qc.py` lines 138–151,
`filter_data.py` lines 92–102): half-min builds the Series
`min_values = metabolite_data.min() / 2` (indexed by column names) and
applies `x.fillna(min_values)` to every column `x`; median and mean fill
with the column's own scalar statistic; zero fills with the literal 0. -/
def impute_missing_values (method : String) (md : MetabData) : MetabData :=
  if method = "half-min" then
    { md with cols := md.cols.map (fun c =>
        (c.1, fillna_aligned md.rows c.2
          (md.cols.map (fun d => (Label.str d.1, (colMin d.2).map (fun x => x / 2)))))) }
  else if method = "median" then
    { md with cols := md.cols.map (fun c => (c.1, fillna_scalar c.2 (colMedian c.2))) }
  else if method = "mean" then
    { md with cols := md.cols.map (fun c => (c.1, fillna_scalar c.2 (colMean c.2))) }
  else if method = "zero" then
    { md with cols := md.cols.map (fun c => (c.1, fillna_scalar c.2 (some 0))) }
  else md

/-- The `MetaboliteQC` configuration (constructor parameters). -/
structure QCConfig where
  filter_column_constant : Bool
  filter_column_missing_rate_threshold : Option ℚ
  filter_row_missing_rate_threshold : Option ℚ
  filter_column_zero_rate_threshold : Option ℚ
  replace_outlier_method : Option String
  nSD : ℚ
  impute_method : String
deriving DecidableEq

/-- The five cleaning stages of `run_QC_pipeline` in their fixed order,
acting on the metabolite block. -/
def qc_metab (cfg : QCConfig) (md : MetabData) : MetabData :=
  impute_missing_values cfg.impute_method
    (replace_outliers cfg.replace_outlier_method cfg.nSD
      (filter_by_zero_rate cfg.filter_column_zero_rate_threshold
        (filter_by_missing_rate cfg.filter_column_missing_rate_threshold
          cfg.filter_row_missing_rate_threshold
          (filter_constant_columns cfg.filter_column_constant md))))

/-- The loaded frame after `MetaboliteQC.load_data`: the source splits
`self.data` into `self.meta_data = data.iloc[:, :8]` (left untouched by all
stages) and `self.metabolite_data = data.iloc[:, 8:]` coerced to numeric;
both blocks share the row-label index of the file (`RangeIndex`, so
duplicate-free integer labels). -/
structure QCFrame where
  rows : List Label
  meta_cols : List (String × List (Option String))
  metab_cols : List (String × List Cell)
deriving DecidableEq

/-- First position of a label in an index. -/
def idx_of (l : Label) : List Label → Option Nat
  | [] => none
  | a :: t => if a = l then some 0 else (idx_of l t).map (· + 1)

/-- Reindexing of one column onto a new row index, as `pd.concat(axis=1)`
aligns columns on the union index: a label absent from the column's own
index yields NaN. -/
def reindex_col {α : Type} (old : List Label) (cells : List (Option α))
    (new : List Label) : List (Option α) :=
  new.map (fun l =>
    match idx_of l old with
    | some i => cells.getD i none
    | none => none)

/-- The union index of `pd.concat([meta_data, metabolite_data], axis=1)`:
the meta labels followed by metabolite labels not among them (the pipeline
only ever removes metabolite rows, so the extra part is empty in use). -/
def out_rows (cfg : QCConfig) (input : QCFrame) : List Label :=
  input.rows ++
    ((qc_metab cfg ⟨input.rows, input.metab_cols⟩).rows.filter
      (fun l => ¬ l ∈ input.rows))

/-- `MetaboliteQC.run_QC_pipeline` (`qc.py` lines 153–168): run the five
stages on the metabolite block, then
`self.data = pd.concat([self.meta_data, self.metabolite_data], axis=1)`,
realigning both blocks on the union of their row indexes. -/
def run_QC_pipeline (cfg : QCConfig) (input : QCFrame) : QCFrame :=
  { rows := out_rows cfg input,
    meta_cols := input.meta_cols.map (fun c =>
      (c.1, reindex_col input.rows c.2 (out_rows cfg input))),
    metab_cols := (qc_metab cfg ⟨input.rows, input.metab_cols⟩).cols.map (fun c =>
      (c.1, reindex_col (qc_metab cfg ⟨input.rows, input.metab_cols⟩).rows c.2
        (out_rows cfg input))) }

/-! ## Distribution Normalizer (`src/evaluate_data.py`)

`df_ranked = numeric_df.rank(axis=1, method='average')`: every numeric cell
is replaced by its average rank among the non-NaN cells of its own row. -/

/-- Average rank (1-based, ties averaged) of a value within a pool:
`count below + (count equal + 1) / 2`. -/
def avgRank (v : ℚ) (vs : List ℚ) : ℚ :=
  ((vs.filter (fun x => x < v)).length : ℚ) +
    (((vs.filter (fun x => x = v)).length : ℚ) + 1) / 2

/-- `rank(method='average')` over one row: NaN cells keep NaN
(`na_option='keep'`) and are excluded from the pool. -/
def rankRow (row : List Cell) : List Cell :=
  row.map (Option.map (fun v => avgRank v (row.filterMap id)))

/-- `df_ranked` (`evaluate_data.py` lines 168–169): `rank(axis=1)`, ranking
each row across the numeric columns. -/
def df_ranked (df : List (List Cell)) : List (List Cell) := df.map rankRow

/-- Rank transform as the spec words it ("replace column values by their
within-column rank"): rank each column, i.e. `rank(axis=0)`.  Stated only to
compare against the source behaviour `df_ranked`. -/
def df_ranked_spec (df : List (List Cell)) : List (List Cell) :=
  ((df.transpose).map rankRow).transpose

/-! ## Concrete instances used by witnesses and counterexamples -/

/-- C1 counterexample: vial 7 is claimed three times (patient 1 twice). -/
def rowsC1 : List MetaRow := [⟨1, 7, "x"⟩, ⟨2, 7, "x"⟩, ⟨1, 7, "x"⟩]

/-- C1 witness: vial 7 claimed exactly twice. -/
def rowsC1w : List MetaRow := [⟨1, 7, "x"⟩, ⟨2, 7, "x"⟩]

/-- C2 counterexample: vial 5 claimed by three distinct patients. -/
def rowsC2 : List MetaRow := [⟨1, 5, "Control"⟩, ⟨2, 5, "Control"⟩, ⟨3, 5, "Control"⟩]

/-- C2 counterexample master sheet: vial 5 present with the matching phenotype. -/
def masterC2 : List MasterRow := [⟨5, "Control", []⟩]

/-- C2 witness: vial 9 claimed exactly twice by distinct patients. -/
def rowsC2w : List MetaRow := [⟨4, 9, "Marasmus"⟩, ⟨5, 9, "Control"⟩]

/-- C2 witness master sheet. -/
def masterC2w : List MasterRow := [⟨9, "Marasmus", []⟩]

/-- C3 counterexample metadata: patient 7 claims vial 100, phenotype Control. -/
def rowsC3 : List MetaRow := [⟨7, 100, "Control"⟩]

/-- C3 counterexample master sheet: vial 100 present, phenotype mismatch. -/
def masterC3 : List MasterRow := [⟨100, "Marasmus", []⟩]

/-- C3 witness state (an arbitrary scan result). -/
def rowsC3w : List MetaRow := [⟨8, 101, "Control"⟩]

/-- C3 witness master sheet. -/
def masterC3w : List MasterRow := [⟨101, "Control", []⟩]

/-- C4 counterexample metadata: patient 7 claims vial 100. -/
def rowsC4 : List MetaRow := [⟨7, 100, "Control"⟩]

/-- C4 counterexample master sheet: vial 100 present, phenotype mismatch, so
patient 7 is not valid. -/
def masterC4 : List MasterRow := [⟨100, "Marasmus", ["d1"]⟩]

/-- C4 counterexample metabolite sheet: a row for patient 7. -/
def metabC4 : List MetabSheetRow := [⟨7, ["v1"]⟩]

/-- C4 witness inputs. -/
def rowsC4w : List MetaRow := [⟨11, 200, "Control"⟩, ⟨12, 201, "Control"⟩]

/-- C4 witness master sheet: vial 200 mapped with a metabolite match, vial
201 mapped without one, vial 202 unmapped. -/
def masterC4w : List MasterRow := [⟨200, "Control", ["d"]⟩, ⟨201, "Control", ["d"]⟩, ⟨202, "Control", ["d"]⟩]

/-- C4 witness metabolite sheet. -/
def metabC4w : List MetabSheetRow := [⟨11, ["x"]⟩]

/-- C5: the default configuration of `qc.py` `main` (half-min imputation). -/
def cfgC5 : QCConfig := ⟨true, some (1/2), none, some (1/4), none, 5, "half-min"⟩

/-- C5 failing input: the metabolite column `m` holds `[1, 2, NaN]`. -/
def frameC5 : QCFrame :=
  ⟨[Label.num 0, Label.num 1, Label.num 2],
   [("ID", [some "a", some "b", some "c"])],
   [("m", [some 1, some 2, none])]⟩

/-- C6 boundary input: two rows, column `m` with exactly one NaN, threshold
1/2, so the NaN count equals `rows × threshold` exactly. -/
def mdC6 : MetabData := ⟨[Label.num 0, Label.num 1], [("m", [some 1, none])]⟩

/-- C6 witness input: four rows, one NaN, threshold 1/4. -/
def mdC6w : MetabData :=
  ⟨[Label.num 0, Label.num 1, Label.num 2, Label.num 3],
   [("w", [some 1, some 2, some 3, none])]⟩

/-- C7 input column `[1, 2, 3, 1000, NaN]`. -/
def md7 : MetabData :=
  ⟨[Label.num 0, Label.num 1, Label.num 2, Label.num 3, Label.num 4],
   [("m", [some 1, some 2, some 3, some 1000, none])]⟩

/-- C7 configuration: outlier replacement by median with nSD = 2, mean
imputation, the other stages at the defaults of `qc.py`. -/
def cfg7 : QCConfig := ⟨true, some (1/2), none, some (1/4), some "median", 2, "mean"⟩

/-- C8 input: one row with three numeric cells. -/
def dfC8 : List (List Cell) := [[some 10, some 5, some 7]]

/-- C9 witness configuration: row filter enabled, zero imputation. -/
def cfgC9 : QCConfig := ⟨false, none, some (1/2), none, none, 5, "zero"⟩

/-- C9 witness frame: the second row is dropped by the row filter. -/
def frameC9 : QCFrame :=
  ⟨[Label.num 0, Label.num 1],
   [("ID", [some "a", some "b"]), ("Phenotype", [some "p", some "q"])],
   [("m1", [some 1, none]), ("m2", [some 2, none])]⟩

/-- C10 witness configuration: row filter enabled, median imputation. -/
def cfgC10 : QCConfig := ⟨false, none, some (1/2), none, none, 5, "median"⟩

/-- C10 witness frame: row 1 has every metabolite cell missing and is dropped
by the row filter. -/
def frameC10 : QCFrame :=
  ⟨[Label.num 0, Label.num 1],
   [("ID", [some "a", some "b"])],
   [("m1", [some 1, none]), ("m2", [some 2, none])]⟩

/-! ## Association-list dictionary lemmas -/

theorem lookup_nil {α β : Type} [DecidableEq α] (k : α) :
    lookup k ([] : List (α × β)) = none := rfl

theorem lookup_cons {α β : Type} [DecidableEq α] (k : α) (p : α × β) (t : List (α × β)) :
    lookup k (p :: t) = if p.1 = k then some p.2 else lookup k t := by
  unfold lookup
  rw [List.find?]
  by_cases h : p.1 = k <;> simp [h]

theorem lookup_upsert_self {α β : Type} [DecidableEq α] (k : α) (v : β)
    (d : List (α × β)) : lookup k (upsert k v d) = some v := by
  induction d with
  | nil => simp [upsert, lookup_cons]
  | cons p t ih =>
      by_cases h : p.1 = k
      · simp [upsert, h, lookup_cons]
      · simp [upsert, h, lookup_cons, ih]

theorem lookup_upsert_ne {α β : Type} [DecidableEq α] {k j : α} (h : j ≠ k)
    (v : β) (d : List (α × β)) : lookup j (upsert k v d) = lookup j d := by
  induction d with
  | nil =>
      have hk : ¬ (k = j) := fun e => h e.symm
      simp [upsert, lookup_cons, lookup_nil, hk]
  | cons p t ih =>
      by_cases hp : p.1 = k
      · have hk : ¬ (k = j) := fun e => h e.symm
        have hpj : ¬ (p.1 = j) := by rw [hp]; exact hk
        simp [upsert, hp, lookup_cons, hk, hpj]
      · simp [upsert, hp, lookup_cons, ih]

theorem lookup_eraseKey_self {α β : Type} [DecidableEq α] (k : α)
    (d : List (α × β)) : lookup k (eraseKey k d) = none := by
  induction d with
  | nil => rfl
  | cons p t ih =>
      by_cases h : p.1 = k
      · simp [eraseKey, List.filter_cons, h] at ih ⊢
        exact ih
      · simp [eraseKey, List.filter_cons, h, lookup_cons] at ih ⊢
        exact ih

theorem lookup_eraseKey_ne {α β : Type} [DecidableEq α] {k j : α} (h : j ≠ k)
    (d : List (α × β)) : lookup j (eraseKey k d) = lookup j d := by
  have hk : ¬ (k = j) := fun e => h e.symm
  induction d with
  | nil => rfl
  | cons p t ih =>
      by_cases hp : p.1 = k
      · simp [eraseKey, List.filter_cons, hp, lookup_cons, hk] at ih ⊢
        exact ih
      · by_cases hj : p.1 = j
        · simp [eraseKey, List.filter_cons, hp, lookup_cons, hj, h]
        · simp [eraseKey, List.filter_cons, hp, lookup_cons, hj] at ih ⊢
          exact ih

theorem lookup_mem_values {α β : Type} [DecidableEq α] {k : α} {v : β}
    {d : List (α × β)} (h : lookup k d = some v) : v ∈ d.map Prod.snd := by
  unfold lookup at h
  rcases Option.map_eq_some'.mp h with ⟨p, hp, hv⟩
  exact hv ▸ List.mem_map_of_mem Prod.snd (List.mem_of_find?_eq_some hp)

theorem keys_upsert {α β : Type} [DecidableEq α] (k : α) (v : β)
    (d : List (α × β)) :
    (upsert k v d).map Prod.fst =
      if k ∈ d.map Prod.fst then d.map Prod.fst else d.map Prod.fst ++ [k] := by
  induction d with
  | nil => simp [upsert]
  | cons p t ih =>
      by_cases hp : p.1 = k
      · simp [upsert, hp, List.map_cons]
      · have hk : ¬ (k = p.1) := fun e => hp e.symm
        simp only [upsert, if_neg hp, List.map_cons, ih, List.mem_cons]
        by_cases hm : k ∈ t.map Prod.fst
        · simp [hm, hk]
        · simp [hm, hk]

theorem nodup_keys_upsert {α β : Type} [DecidableEq α] (k : α) (v : β)
    (d : List (α × β)) (h : (d.map Prod.fst).Nodup) :
    ((upsert k v d).map Prod.fst).Nodup := by
  rw [keys_upsert]
  by_cases hm : k ∈ d.map Prod.fst
  · simpa [hm] using h
  · rw [if_neg hm, List.nodup_append]
    refine ⟨h, List.nodup_singleton k, ?_⟩
    intro a ha hb
    rw [List.mem_singleton] at hb
    exact hm (hb ▸ ha)

theorem nodup_keys_eraseKey {α β : Type} [DecidableEq α] (k : α)
    (d : List (α × β)) (h : (d.map Prod.fst).Nodup) :
    ((eraseKey k d).map Prod.fst).Nodup := by
  have hsub : List.Sublist (eraseKey k d) d := List.filter_sublist d
  exact (hsub.map Prod.fst).nodup h

/-! ## Metadata-scan lemmas -/

theorem process_vialmap (pids : List Int) (st : MatchState) (r : MetaRow) (v : Nat) :
    lookup v (process_meta_row pids st r).vial_id_to_patient_id =
      if r.patient ∈ pids ∧ r.vial = v then
        (match lookup v st.vial_id_to_patient_id with
         | some _ => none
         | none => some r.patient)
      else lookup v st.vial_id_to_patient_id := by
  by_cases hp : r.patient ∈ pids
  · unfold process_meta_row
    rw [if_pos hp]
    cases hl : lookup r.vial st.vial_id_to_patient_id with
    | some q =>
        by_cases hv : r.vial = v
        · subst hv
          simp [hl, lookup_eraseKey_self, hp]
        · have hvne : v ≠ r.vial := fun e => hv e.symm
          simp [hl, lookup_eraseKey_ne hvne, hp, hv]
    | none =>
        by_cases hv : r.vial = v
        · subst hv
          simp [hl, lookup_upsert_self, hp]
        · have hvne : v ≠ r.vial := fun e => hv e.symm
          simp [hl, lookup_upsert_ne hvne, hp, hv]
  · unfold process_meta_row
    rw [if_neg hp]
    simp [hp]

theorem process_conflicts (pids : List Int) (st : MatchState) (r : MetaRow) :
    (process_meta_row pids st r).patients_with_two_vials =
      if r.patient ∈ pids then
        (match lookup r.vial st.vial_id_to_patient_id with
         | some q => st.patients_with_two_vials ++ [r.patient, q]
         | none => st.patients_with_two_vials)
      else st.patients_with_two_vials := by
  by_cases hp : r.patient ∈ pids
  · unfold process_meta_row
    rw [if_pos hp, if_pos hp]
    cases hl : lookup r.vial st.vial_id_to_patient_id <;> simp [hl]
  · unfold process_meta_row
    rw [if_neg hp, if_neg hp]

theorem process_conflicts_mono (pids : List Int) (st : MatchState) (r : MetaRow)
    {x : Int} (h : x ∈ st.patients_with_two_vials) :
    x ∈ (process_meta_row pids st r).patients_with_two_vials := by
  rw [process_conflicts]
  by_cases hp : r.patient ∈ pids
  · rw [if_pos hp]
    cases hl : lookup r.vial st.vial_id_to_patient_id with
    | some q => exact List.mem_append_left _ h
    | none => exact h
  · rw [if_neg hp]; exact h

theorem foldl_conflicts_mono (pids : List Int) (rows : List MetaRow) :
    ∀ (st : MatchState) (x : Int), x ∈ st.patients_with_two_vials →
      x ∈ ((rows.foldl (process_meta_row pids) st).patients_with_two_vials) := by
  induction rows with
  | nil => intro st x h; exact h
  | cons r rs ih =>
      intro st x h
      rw [List.foldl_cons]
      exact ih _ x (process_conflicts_mono pids st r h)

theorem claimants_cons_of_claim (pids : List Int) (v : Nat) (r : MetaRow)
    (rs : List MetaRow) (h : r.patient ∈ pids ∧ r.vial = v) :
    claimants pids v (r :: rs) = r.patient :: claimants pids v rs := by
  simp [claimants, List.filter_cons, h]

theorem claimants_cons_of_other (pids : List Int) (v : Nat) (r : MetaRow)
    (rs : List MetaRow) (h : ¬ (r.patient ∈ pids ∧ r.vial = v)) :
    claimants pids v (r :: rs) = claimants pids v rs := by
  simp [claimants, List.filter_cons, h]

theorem scan_vialmap (pids : List Int) (rows : List MetaRow) :
    ∀ (st : MatchState) (v : Nat),
      lookup v ((rows.foldl (process_meta_row pids) st).vial_id_to_patient_id) =
        vial_fate (lookup v st.vial_id_to_patient_id) (claimants pids v rows) := by
  induction rows with
  | nil => intro st v; simp [claimants, vial_fate]
  | cons r rs ih =>
      intro st v
      rw [List.foldl_cons, ih]
      by_cases hc : r.patient ∈ pids ∧ r.vial = v
      · rw [claimants_cons_of_claim pids v r rs hc, process_vialmap, if_pos hc]
        cases hl : lookup v st.vial_id_to_patient_id <;> simp [vial_fate]
      · rw [claimants_cons_of_other pids v r rs hc, process_vialmap, if_neg hc]

theorem scan_conflicts (pids : List Int) (rows : List MetaRow) :
    ∀ (st : MatchState) (v : Nat) (x : Int),
      x ∈ conflict_pairs (lookup v st.vial_id_to_patient_id) (claimants pids v rows) →
      x ∈ ((rows.foldl (process_meta_row pids) st).patients_with_two_vials) := by
  induction rows with
  | nil => intro st v x h; simp [claimants, conflict_pairs] at h
  | cons r rs ih =>
      intro st v x h
      rw [List.foldl_cons]
      by_cases hc : r.patient ∈ pids ∧ r.vial = v
      · rw [claimants_cons_of_claim pids v r rs hc] at h
        cases hl : lookup v st.vial_id_to_patient_id with
        | some q =>
            rw [hl] at h
            simp only [conflict_pairs, List.mem_cons] at h
            have hconf : (process_meta_row pids st r).patients_with_two_vials =
                st.patients_with_two_vials ++ [r.patient, q] := by
              rw [process_conflicts, if_pos hc.1, hc.2, hl]
            rcases h with h | h | h
            · subst h
              apply foldl_conflicts_mono
              rw [hconf]
              simp
            · subst h
              apply foldl_conflicts_mono
              rw [hconf]
              simp
            · apply ih (process_meta_row pids st r) v x
              rw [process_vialmap, if_pos hc, hl]
              exact h
        | none =>
            rw [hl] at h
            simp only [conflict_pairs] at h
            apply ih (process_meta_row pids st r) v x
            rw [process_vialmap, if_pos hc, hl]
            exact h
      · rw [claimants_cons_of_other pids v r rs hc] at h
        apply ih (process_meta_row pids st r) v x
        rw [process_vialmap, if_neg hc]
        exact h

theorem process_keys_nodup (pids : List Int) (st : MatchState) (r : MetaRow)
    (h : (st.vial_id_to_patient_id.map Prod.fst).Nodup) :
    (((process_meta_row pids st r).vial_id_to_patient_id).map Prod.fst).Nodup := by
  unfold process_meta_row
  by_cases hp : r.patient ∈ pids
  · rw [if_pos hp]
    cases hl : lookup r.vial st.vial_id_to_patient_id with
    | some q =>
        simp only [hl]
        exact nodup_keys_eraseKey r.vial _ h
    | none =>
        simp only [hl]
        exact nodup_keys_upsert r.vial r.patient _ h
  · rw [if_neg hp]; exact h

theorem scan_keys_nodup (pids : List Int) (rows : List MetaRow) :
    ∀ (st : MatchState), (st.vial_id_to_patient_id.map Prod.fst).Nodup →
      (((rows.foldl (process_meta_row pids) st).vial_id_to_patient_id).map Prod.fst).Nodup := by
  induction rows with
  | nil => intro st h; exact h
  | cons r rs ih =>
      intro st h
      rw [List.foldl_cons]
      exact ih _ (process_keys_nodup pids st r h)

theorem scan_meta_keys_nodup (pids : List Int) (rows : List MetaRow) :
    (((scan_meta pids rows).vial_id_to_patient_id).map Prod.fst).Nodup :=
  scan_keys_nodup pids rows ⟨[], [], []⟩ (by simp)

/-! ## Master-validation and assembly lemmas -/

theorem mem_valid_step (st : MatchState) (acc : List Int) (row : MasterRow) (p : Int) :
    p ∈ valid_step st acc row ↔
      p ∈ acc ∨ (lookup row.vial st.vial_id_to_patient_id = some p ∧
        lookup p st.meta_pheno_dict = some (canon_pheno row.pheno)) := by
  unfold valid_step
  cases hl : lookup row.vial st.vial_id_to_patient_id with
  | some q =>
      show p ∈ (if lookup q st.meta_pheno_dict = some (canon_pheno row.pheno) then
          acc ++ [q] else acc) ↔ _
      by_cases hc : lookup q st.meta_pheno_dict = some (canon_pheno row.pheno)
      · rw [if_pos hc]
        simp only [List.mem_append, List.mem_singleton, Option.some_inj]
        constructor
        · rintro (h | h)
          · exact Or.inl h
          · exact Or.inr ⟨h.symm, h ▸ hc⟩
        · rintro (h | ⟨h1, h2⟩)
          · exact Or.inl h
          · exact Or.inr h1.symm
      · rw [if_neg hc]
        constructor
        · exact Or.inl
        · rintro (h | ⟨h1, h2⟩)
          · exact h
          · rw [Option.some_inj] at h1
            exact absurd (h1 ▸ h2) hc
  | none => simp

theorem mem_valid_foldl (st : MatchState) (master : List MasterRow) :
    ∀ (acc : List Int) (p : Int),
      p ∈ master.foldl (valid_step st) acc ↔
        p ∈ acc ∨ ∃ row ∈ master, lookup row.vial st.vial_id_to_patient_id = some p ∧
          lookup p st.meta_pheno_dict = some (canon_pheno row.pheno) := by
  induction master with
  | nil => intro acc p; simp
  | cons row rest ih =>
      intro acc p
      rw [List.foldl_cons, ih, mem_valid_step]
      constructor
      · rintro (( h | h) | ⟨r, hr, h⟩)
        · exact Or.inl h
        · exact Or.inr ⟨row, List.mem_cons_self row rest, h⟩
        · exact Or.inr ⟨r, List.mem_cons_of_mem row hr, h⟩
      · rintro (h | ⟨r, hr, h⟩)
        · exact Or.inl (Or.inl h)
        · rcases List.mem_cons.mp hr with h1 | h1
          · exact Or.inl (Or.inr (h1 ▸ h))
          · exact Or.inr ⟨r, h1, h⟩

theorem mem_valid_everything (st : MatchState) (master : List MasterRow) (p : Int) :
    p ∈ valid_everything st master ↔
      ∃ row ∈ master, lookup row.vial st.vial_id_to_patient_id = some p ∧
        lookup p st.meta_pheno_dict = some (canon_pheno row.pheno) := by
  unfold valid_everything
  rw [mem_valid_foldl]
  simp

theorem valid_mem_values (st : MatchState) (master : List MasterRow) {p : Int}
    (h : p ∈ valid_everything st master) :
    p ∈ st.vial_id_to_patient_id.map Prod.snd := by
  rcases (mem_valid_everything st master p).mp h with ⟨row, _, h1, _⟩
  exact lookup_mem_values h1

theorem assemble_step_length (st : MatchState) (metab : List MetabSheetRow)
    (acc : List DataRow) (row : MasterRow) :
    (assemble_step st metab acc row).length =
      acc.length + (if assembles st metab row then 1 else 0) := by
  unfold assemble_step assembles
  cases hl : lookup row.vial st.vial_id_to_patient_id with
  | some q =>
      cases hf : List.find? (fun m => m.patient = q) metab with
      | some m => simp [hf]
      | none => simp [hf]
  | none => simp

theorem final_data_length_foldl (st : MatchState) (metab : List MetabSheetRow) :
    ∀ (master : List MasterRow) (acc : List DataRow),
      (master.foldl (assemble_step st metab) acc).length =
        acc.length + (master.filter (assembles st metab)).length := by
  intro master
  induction master with
  | nil => intro acc; simp
  | cons row rest ih =>
      intro acc
      rw [List.foldl_cons, ih, assemble_step_length, List.filter_cons]
      by_cases h : assembles st metab row
      · simp [h]
        omega
      · simp [h]

theorem mem_assemble_step (st : MatchState) (metab : List MetabSheetRow)
    (acc : List DataRow) (row : MasterRow) (r : DataRow)
    (h : r ∈ assemble_step st metab acc row) :
    r ∈ acc ∨ r.patient ∈ st.vial_id_to_patient_id.map Prod.snd := by
  unfold assemble_step at h
  cases hl : lookup row.vial st.vial_id_to_patient_id with
  | some q =>
      rw [hl] at h
      have h1 : r ∈ (match List.find? (fun m => m.patient = q) metab with
          | some m => acc ++ [⟨q, row.vial, row.meta_cols, m.values⟩]
          | none => acc : List DataRow) := h
      cases hf : List.find? (fun m => m.patient = q) metab with
      | some m =>
          rw [hf] at h1
          rcases List.mem_append.mp h1 with h2 | h2
          · exact Or.inl h2
          · rw [List.mem_singleton] at h2
            refine Or.inr ?_
            rw [h2]
            exact lookup_mem_values hl
      | none =>
          rw [hf] at h1
          exact Or.inl h1
  | none =>
      rw [hl] at h
      exact Or.inl h

theorem final_data_patient_foldl (st : MatchState) (metab : List MetabSheetRow) :
    ∀ (master : List MasterRow) (acc : List DataRow) (r : DataRow),
      r ∈ master.foldl (assemble_step st metab) acc →
      r ∈ acc ∨ r.patient ∈ st.vial_id_to_patient_id.map Prod.snd := by
  intro master
  induction master with
  | nil => intro acc r h; exact Or.inl h
  | cons row rest ih =>
      intro acc r h
      rw [List.foldl_cons] at h
      rcases ih _ r h with h1 | h1
      · exact mem_assemble_step st metab acc row r h1
      · exact Or.inr h1

/-- Core of the two-claim analysis: when a vial is claimed by exactly two
candidate rows, the scan evicts it from the map and both claimants are on
the conflict list. -/
theorem two_claims_evicted (pids : List Int) (rows : List MetaRow) (v : Nat)
    (a b : Int) (h : claimants pids v rows = [a, b]) :
    lookup v (scan_meta pids rows).vial_id_to_patient_id = none ∧
    a ∈ (scan_meta pids rows).patients_with_two_vials ∧
    b ∈ (scan_meta pids rows).patients_with_two_vials := by
  unfold scan_meta
  have hnil : lookup v ((⟨[], [], []⟩ : MatchState).vial_id_to_patient_id) = none := rfl
  have hmap := scan_vialmap pids rows ⟨[], [], []⟩ v
  rw [hnil, h] at hmap
  refine ⟨?_, ?_, ?_⟩
  · rw [hmap]
    simp [vial_fate]
  · apply scan_conflicts pids rows ⟨[], [], []⟩ v a
    rw [hnil, h]
    simp [conflict_pairs]
  · apply scan_conflicts pids rows ⟨[], [], []⟩ v b
    rw [hnil, h]
    simp [conflict_pairs]

/-! ## Claim C1 -/

/-- Claim C1 (counterexample): with vial 7 claimed three times (patient 1,
patient 2, patient 1 again) the scan leaves patient 1 both on the two-vial
conflict list and mapped by vial 7 in the surviving map, refuting the claim
that for every metadata row sequence — including three or more claimants of
the same vial — no conflict-listed patient is mapped by any surviving vial. -/
theorem c1_counterexample :
    1 ∈ (scan_meta [1, 2] rowsC1).patients_with_two_vials ∧
    lookup 7 (scan_meta [1, 2] rowsC1).vial_id_to_patient_id = some 1 := by
  decide

/-- Claim C1 (amended): after the metadata scan every vial id in the
surviving vial→patient map maps to exactly one patient id (the key list is
duplicate-free), and for every vial claimed by exactly two candidate rows —
distinct patients or a repeated row of one patient — that vial is absent
from the surviving map and both claimants are on the two-vial conflict
list.  With a third claimant of the same vial the vial re-enters the map
even though an earlier claimant is already conflict-listed, so the
no-overlap clause of the original claim holds only per vial with at most
two claims. -/
theorem c1_amended (pids : List Int) (rows : List MetaRow) (v : Nat) (a b : Int)
    (h : claimants pids v rows = [a, b]) :
    (((scan_meta pids rows).vial_id_to_patient_id).map Prod.fst).Nodup ∧
    lookup v (scan_meta pids rows).vial_id_to_patient_id = none ∧
    a ∈ (scan_meta pids rows).patients_with_two_vials ∧
    b ∈ (scan_meta pids rows).patients_with_two_vials := by
  obtain ⟨h1, h2, h3⟩ := two_claims_evicted pids rows v a b h
  exact ⟨scan_meta_keys_nodup pids rows, h1, h2, h3⟩

/-- Witness for `c1_amended`: vial 7 claimed exactly twice in `rowsC1w`. -/
theorem c1_amended_witness :
    claimants [1, 2] 7 rowsC1w = [1, 2] ∧
    ((((scan_meta [1, 2] rowsC1w).vial_id_to_patient_id).map Prod.fst).Nodup ∧
      lookup 7 (scan_meta [1, 2] rowsC1w).vial_id_to_patient_id = none ∧
      1 ∈ (scan_meta [1, 2] rowsC1w).patients_with_two_vials ∧
      2 ∈ (scan_meta [1, 2] rowsC1w).patients_with_two_vials) :=
  ⟨by decide, c1_amended [1, 2] rowsC1w 7 1 2 (by decide)⟩

/-! ## Claim C2 -/

/-- Claim C2 (counterexample): patients 2 and 3 are distinct and both claim
vial 5 in `rowsC2`, yet patient 3 never reaches the conflict list and enters
the valid set through vial 5 itself (not through a different vial), refuting
the claim for pairs drawn from three claimants of one vial. -/
theorem c2_counterexample :
    (∃ r ∈ rowsC2, r.patient = 2 ∧ r.vial = 5) ∧
    (∃ r ∈ rowsC2, r.patient = 3 ∧ r.vial = 5) ∧
    3 ∉ (scan_meta [1, 2, 3] rowsC2).patients_with_two_vials ∧
    3 ∈ valid_everything (scan_meta [1, 2, 3] rowsC2) masterC2 := by
  decide

/-- Claim C2 (amended): for every vial claimed by exactly two candidate
metadata rows carrying distinct patients A and B, both A and B are placed on
the two-vial conflict list, the vial is evicted from the surviving map, and
neither A nor B enters the valid set unless it is mapped through a different
vial (when a vial gathers three or more claims, a later claimant keeps the
vial and may validate through that same vial). -/
theorem c2_amended (pids : List Int) (rows : List MetaRow) (master : List MasterRow)
    (v : Nat) (a b : Int) (h : claimants pids v rows = [a, b]) (hab : a ≠ b) :
    a ∈ (scan_meta pids rows).patients_with_two_vials ∧
    b ∈ (scan_meta pids rows).patients_with_two_vials ∧
    lookup v (scan_meta pids rows).vial_id_to_patient_id = none ∧
    (a ∉ ((scan_meta pids rows).vial_id_to_patient_id).map Prod.snd →
      a ∉ valid_everything (scan_meta pids rows) master) ∧
    (b ∉ ((scan_meta pids rows).vial_id_to_patient_id).map Prod.snd →
      b ∉ valid_everything (scan_meta pids rows) master) := by
  obtain ⟨hnone, hma, hmb⟩ := two_claims_evicted pids rows v a b h
  exact ⟨hma, hmb, hnone,
    fun hv hval => hv (valid_mem_values _ master hval),
    fun hv hval => hv (valid_mem_values _ master hval)⟩

/-- Witness for `c2_amended`: vial 9 claimed exactly twice by the distinct
patients 4 and 5 in `rowsC2w`. -/
theorem c2_amended_witness :
    claimants [4, 5] 9 rowsC2w = [4, 5] ∧ (4 : Int) ≠ 5 ∧
    (4 ∈ (scan_meta [4, 5] rowsC2w).patients_with_two_vials ∧
      5 ∈ (scan_meta [4, 5] rowsC2w).patients_with_two_vials ∧
      lookup 9 (scan_meta [4, 5] rowsC2w).vial_id_to_patient_id = none ∧
      (4 ∉ ((scan_meta [4, 5] rowsC2w).vial_id_to_patient_id).map Prod.snd →
        4 ∉ valid_everything (scan_meta [4, 5] rowsC2w) masterC2w) ∧
      (5 ∉ ((scan_meta [4, 5] rowsC2w).vial_id_to_patient_id).map Prod.snd →
        5 ∉ valid_everything (scan_meta [4, 5] rowsC2w) masterC2w)) :=
  ⟨by decide, by decide, c2_amended [4, 5] rowsC2w masterC2w 9 4 5 (by decide) (by decide)⟩

/-! ## Claim C3 -/

/-- Claim C3 (counterexample): patient 7 is mapped by vial 100, vial 100 is
present in the master sheet `masterC3`, yet — the master phenotype being
"Marasmus" while the metadata phenotype is "control" — patient 7 lands in
`not_in_master`, refuting the claim that a patient whose vial is present in
the master sheet is never placed in the `not_in_master` list. -/
theorem c3_counterexample :
    7 ∈ not_in_master (scan_meta [7] rowsC3) masterC3 ∧
    lookup 100 (scan_meta [7] rowsC3).vial_id_to_patient_id = some 7 ∧
    100 ∈ masterC3.map MasterRow.vial := by
  decide

/-- Claim C3 (amended): a patient of the surviving vial→patient map is
classified `not_in_master` exactly when it fails step-3 validation as a
whole — that is, when no master row both carries a vial mapped to that
patient and agrees on the canonicalized phenotype.  A vial present in the
master sheet with a mismatching phenotype therefore still sends its patient
to `not_in_master`. -/
theorem c3_amended (st : MatchState) (master : List MasterRow) (p : Int) :
    p ∈ not_in_master st master ↔
      p ∈ st.vial_id_to_patient_id.map Prod.snd ∧
      ¬ ∃ row ∈ master, lookup row.vial st.vial_id_to_patient_id = some p ∧
        lookup p st.meta_pheno_dict = some (canon_pheno row.pheno) := by
  unfold not_in_master
  rw [List.mem_filter]
  simp only [decide_eq_true_eq]
  rw [mem_valid_everything]

/-- Witness for `c3_amended` at the matching scenario `rowsC3w`/`masterC3w`. -/
theorem c3_amended_witness :
    8 ∈ not_in_master (scan_meta [8] rowsC3w) masterC3w ↔
      8 ∈ ((scan_meta [8] rowsC3w).vial_id_to_patient_id).map Prod.snd ∧
      ¬ ∃ row ∈ masterC3w,
        lookup row.vial (scan_meta [8] rowsC3w).vial_id_to_patient_id = some 8 ∧
        lookup 8 (scan_meta [8] rowsC3w).meta_pheno_dict = some (canon_pheno row.pheno) :=
  c3_amended (scan_meta [8] rowsC3w) masterC3w 8

/-! ## Claim C4 -/

/-- Claim C4 (counterexample): patient 7 is absent from the valid-patient
list (`valid_everything` is empty — the phenotypes disagree) yet the
assembly loop still produces a data row for it, because the loop checks
membership in the vial→patient map, not in the valid list; this refutes the
claim that only valid patients contribute rows. -/
theorem c4_counterexample :
    (final_data (scan_meta [7] rowsC4) masterC4 metabC4).map DataRow.patient = [7] ∧
    valid_everything (scan_meta [7] rowsC4) masterC4 = [] := by
  decide

/-- Claim C4 (amended): the assembler produces one data row per master-sheet
row whose vial id is in the surviving vial→patient map and for which a
metabolite-sheet row matches the mapped patient id (rows without a
metabolite match are silently dropped), so the row count equals the number
of such master rows; every produced row's patient belongs to the
vial→patient map — but not necessarily to the valid-patient list. -/
theorem c4_amended (st : MatchState) (master : List MasterRow)
    (metab : List MetabSheetRow) :
    (final_data st master metab).length =
      (master.filter (assembles st metab)).length ∧
    ∀ r ∈ final_data st master metab,
      r.patient ∈ st.vial_id_to_patient_id.map Prod.snd := by
  constructor
  · unfold final_data
    rw [final_data_length_foldl]
    simp
  · intro r hr
    unfold final_data at hr
    rcases final_data_patient_foldl st metab master [] r hr with h | h
    · simp at h
    · exact h

/-- Witness for `c4_amended` at `rowsC4w`/`masterC4w`/`metabC4w`. -/
theorem c4_amended_witness :
    (final_data (scan_meta [11, 12] rowsC4w) masterC4w metabC4w).length =
      (masterC4w.filter (assembles (scan_meta [11, 12] rowsC4w) metabC4w)).length ∧
    ∀ r ∈ final_data (scan_meta [11, 12] rowsC4w) masterC4w metabC4w,
      r.patient ∈ ((scan_meta [11, 12] rowsC4w).vial_id_to_patient_id).map Prod.snd :=
  c4_amended (scan_meta [11, 12] rowsC4w) masterC4w metabC4w

/-! ## Claim C5 -/

/-- The half-min fill series never matches a numeric row label: its keys are
column names. -/
theorem lookup_num_in_str_series {n : Nat} (f : String × List Cell → Cell)
    (cols : List (String × List Cell)) :
    lookup (Label.num n) (cols.map (fun d => (Label.str d.1, f d))) = none := by
  induction cols with
  | nil => rfl
  | cons c t ih =>
      rw [List.map_cons, lookup_cons, if_neg (by simp)]
      exact ih

/-- Half-min imputation is the identity on any metabolite block whose row
labels are numeric (as every `RangeIndex`-labelled frame is): the fill
values are indexed by column names, so the alignment of `Series.fillna`
never fires. -/
theorem halfmin_fillna_noop (rows : List Label) (cells : List Cell)
    (cols : List (String × List Cell))
    (hrows : ∀ l ∈ rows, ∃ n, l = Label.num n)
    (hlen : rows.length = cells.length) :
    fillna_aligned rows cells
      (cols.map (fun d => (Label.str d.1, (colMin d.2).map (fun x => x / 2)))) = cells := by
  induction rows generalizing cells with
  | nil =>
      cases cells with
      | nil => rfl
      | cons c cs => exact absurd hlen (by simp)
  | cons l ls ih =>
      cases cells with
      | nil => exact absurd hlen (by simp)
      | cons c cs =>
          unfold fillna_aligned
          rw [List.zip_cons_cons, List.map_cons]
          have htail : fillna_aligned ls cs
              (cols.map (fun d => (Label.str d.1, (colMin d.2).map (fun x => x / 2)))) = cs :=
            ih cs (fun x hx => hrows x (List.mem_cons_of_mem l hx)) (by simpa using hlen)
          unfold fillna_aligned at htail
          rw [htail]
          cases c with
          | some x => rfl
          | none =>
              rcases hrows l (List.mem_cons_self l ls) with ⟨n, rfl⟩
              rw [lookup_num_in_str_series]

set_option maxRecDepth 400000 in
/-- Claim C5 (code bug): at the failing input `frameC5` — metabolite column
`m = [1, 2, NaN]`, the default `qc.py` configuration with
`impute_method = "half-min"` — the Cleaning Engine's output still contains
the NaN: `x.fillna(min_values)` aligns the column-name-indexed minima
Series against integer row labels, so no value is ever filled, contradicting
the documented half-min strategy and the claim that all NaNs are resolved. -/
theorem c5_halfmin_leaves_missing :
    (run_QC_pipeline cfgC5 frameC5).metab_cols = [("m", [some 1, some 2, none])] ∧
    (impute_missing_values "half-min" ⟨frameC5.rows, frameC5.metab_cols⟩).cols =
      [("m", [some 1, some 2, none])] := by
  with_unfolding_all decide

/-! ## Claim C6 -/

set_option maxRecDepth 400000 in
/-- Claim C6 (counterexample): two rows, threshold 1/2, column `m` with
exactly one NaN — the NaN count 1 equals `2 × (1/2)` exactly, and the
missing-rate filter drops the column (the surviving column list is empty),
refuting the claim that a column exactly at the threshold is retained. -/
theorem c6_counterexample :
    (filter_by_missing_rate (some (1 / 2)) none mdC6).cols = [] ∧
    naCount [some 1, none] = 1 ∧ mdC6.rows.length = 2 := by
  with_unfolding_all decide

/-- Claim C6 (amended): the missing-rate filter keeps a column exactly when
its NaN count is strictly less than `row_count × threshold`; a column whose
NaN count equals `row_count × threshold` is therefore dropped, not
retained. -/
theorem c6_amended (t : ℚ) (md : MetabData) (c : String × List Cell)
    (hexact : (naCount c.2 : ℚ) = (md.rows.length : ℚ) * t) :
    c ∉ (filter_by_missing_rate (some t) none md).cols := by
  intro hmem
  have hcols : (filter_by_missing_rate (some t) none md).cols =
      md.cols.filter (fun c => ((naCount c.2 : ℚ) < (md.rows.length : ℚ) * t)) := rfl
  rw [hcols, List.mem_filter] at hmem
  have hlt := of_decide_eq_true hmem.2
  rw [hexact] at hlt
  exact lt_irrefl _ hlt

set_option maxRecDepth 400000 in
/-- Witness for `c6_amended`: four rows, threshold 1/4, one NaN. -/
theorem c6_amended_witness :
    ((naCount ("w", [some 1, some 2, some 3, none]).2 : ℚ) =
      (mdC6w.rows.length : ℚ) * (1 / 4)) ∧
    ("w", [some 1, some 2, some 3, none]) ∉
      (filter_by_missing_rate (some (1 / 4)) none mdC6w).cols :=
  ⟨by with_unfolding_all decide,
   c6_amended (1 / 4) mdC6w ("w", [some 1, some 2, some 3, none])
     (by with_unfolding_all decide)⟩

/-! ## Claim C7 -/

set_option maxRecDepth 400000 in
/-- Claim C7 (counterexample): on the column `[1, 2, 3, 1000, NaN]` with
`replace_outlier_method = "median"` and `nSD = 2`, the outlier stage changes
nothing — `|1000 − 2.5| = 997.5` does not exceed `2` sample standard
deviations (`4·s² = 2988020/3 > 997.5²`) — refuting the claim that 1000 is
replaced by the column median. -/
theorem c7_counterexample :
    replace_outliers (some "median") 2 md7 = md7 := by
  with_unfolding_all decide

set_option maxRecDepth 400000 in
/-- Claim C7 (amended): running the Cleaning Engine's stages in their fixed
order (outlier replacement strictly before imputation, never reversed) on
the column `[1, 2, 3, 1000, NaN]` with `replace_outlier_method = "median"`,
`nSD = 2` and `impute_method = "mean"` leaves 1000 in place — it is not an
outlier under the sample-standard-deviation test — and afterwards fills the
NaN with the column mean `251.5` of the values left by the outlier stage. -/
theorem c7_amended :
    (qc_metab cfg7 md7).cols =
      [("m", [some 1, some 2, some 3, some 1000, some (503 / 2)])] ∧
    (qc_metab cfg7 md7).rows = md7.rows ∧
    qc_metab cfg7 md7 =
      impute_missing_values "mean" (replace_outliers (some "median") 2 md7) := by
  refine ⟨?_, ?_, ?_⟩
  · with_unfolding_all decide
  · with_unfolding_all decide
  · with_unfolding_all decide

/-! ## Claim C8 -/

/-- Counting step for rank monotonicity: the values strictly below `w`
include both the values strictly below `v` and the values equal to `v`,
whenever `v < w`. -/
theorem count_lt_add_count_eq_le (p : List ℚ) (v w : ℚ) (hvw : v < w) :
    (p.filter (fun x => x < v)).length + (p.filter (fun x => x = v)).length ≤
      (p.filter (fun x => x < w)).length := by
  induction p with
  | nil => simp
  | cons a t ih =>
      rw [List.filter_cons, List.filter_cons, List.filter_cons]
      by_cases h1 : a < v
      · have h2 : ¬ a = v := fun e => absurd h1 (by rw [e]; exact lt_irrefl v)
        have h3 : a < w := h1.trans hvw
        simp [h1, h2, h3]
        omega
      · by_cases h2 : a = v
        · have h3 : a < w := by rw [h2]; exact hvw
          simp [h1, h2, h3, hvw]
          omega
        · by_cases h3 : a < w
          · simp [h1, h2, h3]
            omega
          · simp [h1, h2, h3]
            omega

/-- Rank monotonicity: within one pool, a strictly smaller member value gets
a strictly smaller average rank. -/
theorem avgRank_strict_mono (p : List ℚ) (v w : ℚ) (hv : v ∈ p) (hw : w ∈ p)
    (hvw : v < w) : avgRank v p < avgRank w p := by
  have hcount := count_lt_add_count_eq_le p v w hvw
  have hev : 1 ≤ (p.filter (fun x => x = v)).length :=
    List.length_pos.mpr (List.ne_nil_of_mem (List.mem_filter.mpr ⟨hv, by simp⟩))
  have hew : 1 ≤ (p.filter (fun x => x = w)).length :=
    List.length_pos.mpr (List.ne_nil_of_mem (List.mem_filter.mpr ⟨hw, by simp⟩))
  unfold avgRank
  have c1 : ((p.filter (fun x => x < v)).length : ℚ) +
      ((p.filter (fun x => x = v)).length : ℚ) ≤
      ((p.filter (fun x => x < w)).length : ℚ) := by exact_mod_cast hcount
  have c2 : (1 : ℚ) ≤ ((p.filter (fun x => x = v)).length : ℚ) := by exact_mod_cast hev
  have c3 : (1 : ℚ) ≤ ((p.filter (fun x => x = w)).length : ℚ) := by exact_mod_cast hew
  linarith

/-- `df_ranked` acts row by row. -/
theorem df_ranked_getD (df : List (List Cell)) (i : Nat) :
    (df_ranked df).getD i [] = rankRow (df.getD i []) := by
  unfold df_ranked
  induction df generalizing i with
  | nil => cases i <;> rfl
  | cons r t ih =>
      cases i with
      | zero => rfl
      | succ n => exact ih n

/-- Claim C8 (counterexample): on the single-row frame `[[10, 5, 7]]` the
source transform `df_ranked` (`rank(axis=1)`) yields the within-row ranks
`[[3, 1, 2]]`, while ranking within each column — the spec's wording —
yields `[[1, 1, 1]]`; the two disagree, refuting the within-column
description. -/
theorem c8_counterexample :
    df_ranked dfC8 = [[some 3, some 1, some 2]] ∧
    df_ranked_spec dfC8 = [[some 1, some 1, some 1]] ∧
    df_ranked dfC8 ≠ df_ranked_spec dfC8 := by
  with_unfolding_all decide

/-- Claim C8 (amended): `df_ranked` replaces every numeric cell by its
average rank computed within its own row across the numeric columns
(`rank(axis=1, method='average')`), unconditionally and with no dependence
on any normality test: two non-NaN cells of the same row are ranked in the
strict order of their values. -/
theorem c8_amended (df : List (List Cell)) (i j k : Nat) (v w : ℚ)
    (hv : (df.getD i []).get? j = some (some v))
    (hw : (df.getD i []).get? k = some (some w))
    (hvw : v < w) :
    ((df_ranked df).getD i []).get? j =
      some (some (avgRank v ((df.getD i []).filterMap id))) ∧
    ((df_ranked df).getD i []).get? k =
      some (some (avgRank w ((df.getD i []).filterMap id))) ∧
    avgRank v ((df.getD i []).filterMap id) <
      avgRank w ((df.getD i []).filterMap id) := by
  rw [df_ranked_getD]
  have hvp : v ∈ (df.getD i []).filterMap id :=
    List.mem_filterMap.mpr ⟨some v, List.get?_mem hv, rfl⟩
  have hwp : w ∈ (df.getD i []).filterMap id :=
    List.mem_filterMap.mpr ⟨some w, List.get?_mem hw, rfl⟩
  refine ⟨?_, ?_, avgRank_strict_mono _ v w hvp hwp hvw⟩
  · unfold rankRow
    rw [List.get?_map, hv]
    rfl
  · unfold rankRow
    rw [List.get?_map, hw]
    rfl

/-- Witness for `c8_amended`: row 0 of `dfC8`, cells 5 and 7. -/
theorem c8_amended_witness :
    ((dfC8.getD 0 []).get? 1 = some (some 5) ∧
      (dfC8.getD 0 []).get? 2 = some (some 7) ∧ (5 : ℚ) < 7) ∧
    (((df_ranked dfC8).getD 0 []).get? 1 =
        some (some (avgRank 5 ((dfC8.getD 0 []).filterMap id))) ∧
      ((df_ranked dfC8).getD 0 []).get? 2 =
        some (some (avgRank 7 ((dfC8.getD 0 []).filterMap id))) ∧
      avgRank 5 ((dfC8.getD 0 []).filterMap id) <
        avgRank 7 ((dfC8.getD 0 []).filterMap id)) :=
  ⟨⟨by decide, by decide, by norm_num⟩,
   c8_amended dfC8 0 1 2 5 7 (by decide) (by decide) (by norm_num)⟩

/-! ## Cleaning-pipeline frame lemmas (claims C9 and C10) -/

theorem rows_filter_constant_columns (flag : Bool) (md : MetabData) :
    (filter_constant_columns flag md).rows = md.rows := by
  unfold filter_constant_columns
  split <;> rfl

theorem rows_filter_by_zero_rate (t? : Option ℚ) (md : MetabData) :
    (filter_by_zero_rate t? md).rows = md.rows := by
  unfold filter_by_zero_rate
  cases t? <;> rfl

theorem rows_replace_outliers (m : Option String) (nSD : ℚ) (md : MetabData) :
    (replace_outliers m nSD md).rows = md.rows := by
  cases m with
  | none => rfl
  | some s =>
      have he : replace_outliers (some s) nSD md =
          if s = "median" then
            { md with cols := md.cols.map (fun c => (c.1, replace_outliers_col nSD c.2)) }
          else md := rfl
      rw [he]
      split <;> rfl

theorem rows_impute_missing_values (method : String) (md : MetabData) :
    (impute_missing_values method md).rows = md.rows := by
  unfold impute_missing_values
  split_ifs <;> rfl

theorem enumFrom_filter_map_sublist {α : Type} (q : Nat × α → Bool) :
    ∀ (n : Nat) (l : List α),
      List.Sublist (((List.enumFrom n l).filter q).map Prod.snd) l := by
  intro n l
  induction l generalizing n with
  | nil => simp
  | cons a t ih =>
      rw [List.enumFrom, List.filter_cons]
      by_cases h : q (n, a)
      · rw [if_pos h, List.map_cons]
        exact (ih (n + 1)).cons₂ a
      · rw [if_neg h]
        exact (ih (n + 1)).cons a

theorem keep_idxs_sublist {α : Type} (keep : Nat → Bool) (l : List α) :
    List.Sublist (keep_idxs keep l) l := by
  unfold keep_idxs
  have h := enumFrom_filter_map_sublist (fun p => keep p.1) 0 l
  have he : l.enum = List.enumFrom 0 l := rfl
  rw [he]
  exact h

theorem rows_filter_col_missing (colT : Option ℚ) (md : MetabData) :
    (filter_col_missing colT md).rows = md.rows := by
  cases colT <;> rfl

theorem rows_filter_row_missing_sublist (rowT : Option ℚ) (md : MetabData) :
    List.Sublist (filter_row_missing rowT md).rows md.rows := by
  cases rowT with
  | none => exact List.Sublist.refl _
  | some t =>
      have he : (filter_row_missing (some t) md).rows =
          keep_idxs
            (fun i => ((row_na_count md.cols i : ℚ) < (md.cols.length : ℚ) * t)) md.rows := rfl
      rw [he]
      exact keep_idxs_sublist _ _

theorem rows_filter_by_missing_rate_sublist (colT rowT : Option ℚ) (md : MetabData) :
    List.Sublist (filter_by_missing_rate colT rowT md).rows md.rows := by
  unfold filter_by_missing_rate
  have h := rows_filter_row_missing_sublist rowT (filter_col_missing colT md)
  rw [rows_filter_col_missing] at h
  exact h

theorem qc_metab_rows_sublist (cfg : QCConfig) (md : MetabData) :
    List.Sublist (qc_metab cfg md).rows md.rows := by
  unfold qc_metab
  rw [rows_impute_missing_values, rows_replace_outliers, rows_filter_by_zero_rate]
  have h := rows_filter_by_missing_rate_sublist cfg.filter_column_missing_rate_threshold
    cfg.filter_row_missing_rate_threshold (filter_constant_columns cfg.filter_column_constant md)
  rw [rows_filter_constant_columns] at h
  exact h

theorem out_rows_eq (cfg : QCConfig) (input : QCFrame) :
    out_rows cfg input = input.rows := by
  unfold out_rows
  have hsub := (qc_metab_rows_sublist cfg ⟨input.rows, input.metab_cols⟩).subset
  have hnil : ((qc_metab cfg ⟨input.rows, input.metab_cols⟩).rows.filter
      (fun l => ¬ l ∈ input.rows)) = [] := by
    rw [List.filter_eq_nil]
    intro a ha
    simp [hsub ha]
  rw [hnil, List.append_nil]

theorem idx_of_eq_none {l : Label} : ∀ {rows : List Label},
    l ∉ rows → idx_of l rows = none := by
  intro rows
  induction rows with
  | nil => intro _; rfl
  | cons a t ih =>
      intro h
      have hne : ¬ a = l := by
        intro e
        rw [← e] at h
        exact h (List.mem_cons_self a t)
      unfold idx_of
      rw [if_neg hne, ih (fun hm => h (List.mem_cons_of_mem a hm))]
      rfl

theorem idx_of_get (rows : List Label) (hnd : rows.Nodup) :
    ∀ (i : Nat) (h : i < rows.length), idx_of (rows.get ⟨i, h⟩) rows = some i := by
  induction rows with
  | nil => intro i h; exact absurd h (by simp)
  | cons a t ih =>
      intro i h
      cases i with
      | zero => simp [idx_of]
      | succ n =>
          have hmem : t.get ⟨n, by simpa using h⟩ ∈ t := List.get_mem t n (by simpa using h)
          have hne : ¬ a = t.get ⟨n, by simpa using h⟩ := by
            intro e
            exact (List.nodup_cons.mp hnd).1 (e ▸ hmem)
          show idx_of (t.get ⟨n, by simpa using h⟩) (a :: t) = some (n + 1)
          unfold idx_of
          rw [if_neg hne, ih (List.nodup_cons.mp hnd).2 n (by simpa using h)]
          rfl

theorem reindex_col_id {α : Type} (rows : List Label) (cells : List (Option α))
    (hnd : rows.Nodup) (hlen : cells.length = rows.length) :
    reindex_col rows cells rows = cells := by
  apply List.ext_get
  · simp [reindex_col, hlen]
  · intro i h1 h2
    have hi : i < rows.length := by simpa [reindex_col] using h1
    unfold reindex_col
    rw [List.get_map]
    rw [idx_of_get rows hnd i hi]
    show cells.getD i none = cells.get ⟨i, h2⟩
    rw [List.getD_eq_get cells none h2]

theorem map_pair_id {α β : Type} (l : List (α × β)) (f : α × β → α × β)
    (h : ∀ c ∈ l, f c = c) : l.map f = l := by
  induction l with
  | nil => rfl
  | cons c t ih =>
      rw [List.map_cons, h c (List.mem_cons_self c t),
        ih (fun d hd => h d (List.mem_cons_of_mem c hd))]

/-! ## Claim C9 -/

/-- Claim C9 (confirmed): for every configuration and every well-formed
loaded frame (duplicate-free row labels, metadata columns aligned with the
row index), the metadata/ID/phenotype block of `run_QC_pipeline`'s output is
value-for-value identical to the input block, in the same column order, and
the output keeps the input row index: every cleaning stage touches only the
metabolite block. -/
theorem c9_meta_columns_untouched (cfg : QCConfig) (input : QCFrame)
    (hnd : input.rows.Nodup)
    (hlen : ∀ c ∈ input.meta_cols, c.2.length = input.rows.length) :
    (run_QC_pipeline cfg input).meta_cols = input.meta_cols ∧
    (run_QC_pipeline cfg input).rows = input.rows := by
  have hrows := out_rows_eq cfg input
  constructor
  · show input.meta_cols.map
        (fun c => (c.1, reindex_col input.rows c.2 (out_rows cfg input))) = input.meta_cols
    apply map_pair_id
    intro c hc
    rw [hrows, reindex_col_id input.rows c.2 hnd (hlen c hc)]
  · exact hrows

/-- Witness for `c9_meta_columns_untouched` at `cfgC9`/`frameC9`, where the
row filter really drops row 1. -/
theorem c9_meta_columns_untouched_witness :
    (frameC9.rows.Nodup ∧ ∀ c ∈ frameC9.meta_cols, c.2.length = frameC9.rows.length) ∧
    ((run_QC_pipeline cfgC9 frameC9).meta_cols = frameC9.meta_cols ∧
      (run_QC_pipeline cfgC9 frameC9).rows = frameC9.rows) :=
  ⟨⟨by decide, by decide⟩,
   c9_meta_columns_untouched cfgC9 frameC9 (by decide) (by decide)⟩

/-! ## Claim C10 -/

/-- Claim C10 (confirmed): the table returned by `run_QC_pipeline` has
exactly the row index of the loaded input — even when the row filter is
enabled and drops rows from the metabolite block — and every row label
absent from the filtered metabolite block reappears in the output with NaN
in every metabolite column, because the final `pd.concat(axis=1)` realigns
the blocks on the original row index. -/
theorem c10_rows_reappear (cfg : QCConfig) (input : QCFrame) :
    (run_QC_pipeline cfg input).rows = input.rows ∧
    ∀ c ∈ (run_QC_pipeline cfg input).metab_cols,
      ∀ (i : Nat) (h : i < input.rows.length),
        input.rows.get ⟨i, h⟩ ∉ (qc_metab cfg ⟨input.rows, input.metab_cols⟩).rows →
        c.2.get? i = some none := by
  refine ⟨out_rows_eq cfg input, ?_⟩
  intro c hc i h hdrop
  rcases List.mem_map.mp hc with ⟨d, hd, rfl⟩
  show (reindex_col (qc_metab cfg ⟨input.rows, input.metab_cols⟩).rows d.2
      (out_rows cfg input)).get? i = some none
  rw [out_rows_eq]
  unfold reindex_col
  rw [List.get?_map, List.get?_eq_get h]
  rw [Option.map_some']
  rw [idx_of_eq_none hdrop]

/-- Witness for `c10_rows_reappear` at `cfgC10`/`frameC10`: row 1 is dropped
by the row filter yet reappears with NaN in both metabolite columns. -/
theorem c10_rows_reappear_witness :
    ((run_QC_pipeline cfgC10 frameC10).rows = frameC10.rows ∧
      ∀ c ∈ (run_QC_pipeline cfgC10 frameC10).metab_cols,
        ∀ (i : Nat) (h : i < frameC10.rows.length),
          frameC10.rows.get ⟨i, h⟩ ∉
            (qc_metab cfgC10 ⟨frameC10.rows, frameC10.metab_cols⟩).rows →
          c.2.get? i = some none) ∧
    frameC10.rows.get ⟨1, by decide⟩ ∉
      (qc_metab cfgC10 ⟨frameC10.rows, frameC10.metab_cols⟩).rows :=
  ⟨c10_rows_reappear cfgC10 frameC10, by with_unfolding_all decide⟩

end PyMetaboleX
